import Mathlib

/-!
Shallow embedding of `src/sw.js` (karans4/patchdao): a minimal offline-caching
service worker with three handlers (install, activate, fetch).

The source:

  const CACHE='ghost-v1';
  const ASSETS=['ghost.html','manifest.json','icon.svg'];

  self.addEventListener('install',e=>{
    e.waitUntil(caches.open(CACHE).then(c=>c.addAll(ASSETS)));
    self.skipWaiting();
  });

  self.addEventListener('activate',e=>{
    e.waitUntil(caches.keys().then(ks=>Promise.all(ks.filter(k=>k!==CACHE).map(k=>caches.delete(k)))));
    self.clients.claim();
  });

  self.addEventListener('fetch',e=>{
    e.respondWith(caches.match(e.request).then(r=>r||fetch(e.request)));
  });

Modelling choices:
- Cache storage is an association list of named buckets (`CacheStorage`);
  a bucket is an association list from request identity (URL string) to a
  stored response.  `caches.match` scans buckets in order and returns the
  first hit, mirroring the CacheStorage API.
- The network is a function from request identity to `Except NetErr Response`
  (an `error` result models a failed fetch / unreachable network).
- `cache.addAll` is a batch operation: it fetches all listed assets and
  rejects if any fetch fails, storing entries only on full success.
- Each handler is a pure function returning the new cache storage, whether
  the `waitUntil`ed unit resolved (`unitOk`), and a trace of observable
  events.  In the JS event loop the handler body runs synchronously, so
  `self.skipWaiting()` / `self.clients.claim()` fire before any of the
  asynchronous cache/network work of the `waitUntil`ed promise chain; the
  traces therefore place those signals first.
- `caches.delete` resolves to a boolean that the source discards; a
  deletion oracle `delOk` says which deletions succeed, and a failed
  deletion leaves the bucket in place without any error surfacing.
-/

namespace PatchDao

/-- `const CACHE='ghost-v1'`. -/
def CACHE : String := "ghost-v1"

/-- `const ASSETS=['ghost.html','manifest.json','icon.svg']`. -/
def ASSETS : List String := ["ghost.html", "manifest.json", "icon.svg"]

/-- A stored response payload (headers + body abstracted to one field). -/
structure Response where
  body : String
deriving DecidableEq

/-- A network-level fetch failure (e.g. network unreachable). -/
structure NetErr where
  msg : String
deriving DecidableEq

/-- The network: maps a request identity to a response or a failure. -/
abbrev Network : Type := String → Except NetErr Response

/-- One cache bucket: request identity to stored response pairs. -/
abbrev Bucket : Type := List (String × Response)

/-- The cache storage: named buckets, in creation order. -/
abbrev CacheStorage : Type := List (String × Bucket)

/-- Look a request identity up in one bucket (first matching entry). -/
def bucketMatch : Bucket → String → Option Response
  | [], _ => none
  | (k, v) :: rest, req => if k = req then some v else bucketMatch rest req

/-- `caches.match(request)`: scan all open buckets in order, first hit wins. -/
def cachesMatch : CacheStorage → String → Option Response
  | [], _ => none
  | (_, b) :: rest, req =>
      match bucketMatch b req with
      | some r => some r
      | none => cachesMatch rest req

/-- `caches.keys()`: the list of bucket names, in order. -/
def cachesKeys (cs : CacheStorage) : List String := cs.map (fun p => p.1)

/-- The bucket stored under a name, if present (first match). -/
def storageGet : CacheStorage → String → Option Bucket
  | [], _ => none
  | (n, b) :: rest, name => if n = name then some b else storageGet rest name

/-- `caches.open(name)`: create the bucket (empty) if absent. -/
def cachesOpen (cs : CacheStorage) (name : String) : CacheStorage :=
  match storageGet cs name with
  | some _ => cs
  | none => cs ++ [(name, [])]

/-- `caches.delete(name)`: remove every bucket with that name. -/
def cachesDelete : CacheStorage → String → CacheStorage
  | [], _ => []
  | (n, b) :: rest, name =>
      if n = name then cachesDelete rest name else (n, b) :: cachesDelete rest name

/-- Store a response under a request identity, replacing an older entry. -/
def bucketPut : Bucket → String → Response → Bucket
  | [], req, r => [(req, r)]
  | (k, v) :: rest, req, r =>
      if k = req then (k, r) :: rest else (k, v) :: bucketPut rest req r

/-- Store into the named bucket (no-op when the bucket is absent; the
install handler always opens the bucket first). -/
def storagePut : CacheStorage → String → String → Response → CacheStorage
  | [], _, _, _ => []
  | (n, b) :: rest, name, req, r =>
      if n = name then (n, bucketPut b req r) :: rest
      else (n, b) :: storagePut rest name req r

/-- The fetch phase of `cache.addAll`: fetch every listed path, failing the
whole batch as soon as one fetch fails. -/
def fetchAll (net : Network) : List String → Except NetErr (List (String × Response))
  | [] => .ok []
  | a :: rest =>
      match net a with
      | .error e => .error e
      | .ok r =>
          match fetchAll net rest with
          | .error e => .error e
          | .ok l => .ok ((a, r) :: l)

/-- Observable events emitted while a handler (and its awaited unit) runs. -/
inductive Event where
  | netFetch (req : String)
  | cacheStore (bucket : String) (req : String)
  | skipWaiting
  | cacheDeleteAttempt (name : String)
  | claimClients
deriving DecidableEq

/-- Network-fetch events of `addAll`, in asset order, stopping at the first
failing fetch (the batch rejects there). -/
def addAllFetchTrace (net : Network) : List String → List Event
  | [] => []
  | a :: rest =>
      Event.netFetch a ::
        match net a with
        | .error _ => []
        | .ok _ => addAllFetchTrace net rest

/-- Outcome of one run of the install handler. -/
structure InstallResult where
  caches : CacheStorage
  unitOk : Bool
  trace : List Event

/-- The install handler:
`e.waitUntil(caches.open(CACHE).then(c=>c.addAll(ASSETS))); self.skipWaiting();`.
The handler body runs synchronously, so `skipWaiting` is emitted before any
of the asynchronous fetch/store work; `unitOk` reports whether the awaited
promise chain resolved. -/
def installHandler (net : Network) (cs : CacheStorage) : InstallResult :=
  let cs1 := cachesOpen cs CACHE
  match fetchAll net ASSETS with
  | .error _ =>
      { caches := cs1
        unitOk := false
        trace := Event.skipWaiting :: addAllFetchTrace net ASSETS }
  | .ok entries =>
      { caches := entries.foldl (fun s p => storagePut s CACHE p.1 p.2) cs1
        unitOk := true
        trace := Event.skipWaiting ::
          (addAllFetchTrace net ASSETS ++
            entries.map (fun p => Event.cacheStore CACHE p.1)) }

/-- Outcome of one run of the activate handler. -/
structure ActivateResult where
  caches : CacheStorage
  unitOk : Bool
  trace : List Event

/-- The activate handler:
`e.waitUntil(caches.keys().then(ks=>Promise.all(ks.filter(k=>k!==CACHE).map(k=>caches.delete(k))))); self.clients.claim();`.
`delOk` is the deletion oracle: `caches.delete` resolves to a boolean the
source discards, so a failed deletion leaves the bucket and nothing is
surfaced; the awaited `Promise.all` always resolves (`unitOk := true`).
The handler body runs synchronously, so `claimClients` is emitted before
the asynchronous deletions. -/
def activateHandler (delOk : String → Bool) (cs : CacheStorage) : ActivateResult :=
  let stale := (cachesKeys cs).filter (fun k => decide (k ≠ CACHE))
  { caches := stale.foldl (fun s k => if delOk k then cachesDelete s k else s) cs
    unitOk := true
    trace := Event.claimClients :: stale.map Event.cacheDeleteAttempt }

/-- Outcome of one run of the fetch handler for a single request. -/
structure FetchResult where
  response : Except NetErr Response
  networkCalls : Nat
  caches : CacheStorage

/-- The fetch handler:
`e.respondWith(caches.match(e.request).then(r=>r||fetch(e.request)));`.
A cache hit is returned with no network call; a miss forwards the request
to the network exactly once and returns the network's result verbatim.
The cache storage is returned unchanged: the handler never writes to it. -/
def fetchHandler (net : Network) (cs : CacheStorage) (req : String) : FetchResult :=
  match cachesMatch cs req with
  | some r => { response := .ok r, networkCalls := 0, caches := cs }
  | none => { response := net req, networkCalls := 1, caches := cs }

/-- Serve a sequence of requests through the fetch handler, threading the
cache storage. -/
def serveAll (net : Network) (cs : CacheStorage) : List String → CacheStorage
  | [] => cs
  | r :: rs => serveAll net (fetchHandler net cs r).caches rs

/-- `noWorkAfterSig sig work tr` holds when no `work` event occurs after any
`sig` event of `tr`: i.e. the signal is only emitted once all the work events
of the trace are done. -/
def noWorkAfterSig (sig work : Event → Bool) : List Event → Bool
  | [] => true
  | e :: rest =>
      (if sig e then rest.all (fun x => !work x) else true) && noWorkAfterSig sig work rest

/-- Events belonging to the install unit's bulk fetch-and-store. -/
def isInstallWork : Event → Bool
  | .netFetch _ => true
  | .cacheStore _ _ => true
  | _ => false

/-- Stale-bucket deletion events of the activate unit. -/
def isDeleteWork : Event → Bool
  | .cacheDeleteAttempt _ => true
  | _ => false

/-- Recognizer for the skip-waiting signal. -/
def isSkipWaiting : Event → Bool
  | .skipWaiting => true
  | _ => false

/-- Recognizer for the claim-clients signal. -/
def isClaimClients : Event → Bool
  | .claimClients => true
  | _ => false

/-- A concrete always-succeeding network, for witnesses. -/
def netUp : Network := fun req => .ok ⟨String.append "payload:" req⟩

/-- A concrete always-failing network, for witnesses. -/
def netDown : Network := fun _ => .error ⟨"unreachable"⟩

theorem fetchAll_ok_map_fst (net : Network) :
    ∀ (paths : List String) (l : List (String × Response)),
      fetchAll net paths = .ok l → l.map (fun p => p.1) = paths := by
  intro paths
  induction paths with
  | nil => intro l h; simp [fetchAll] at h; simp [← h]
  | cons a rest ih =>
      intro l h
      simp only [fetchAll] at h
      cases ha : net a with
      | error e => rw [ha] at h; exact absurd h (by simp)
      | ok r =>
          rw [ha] at h
          cases hrest : fetchAll net rest with
          | error e => rw [hrest] at h; exact absurd h (by simp)
          | ok l2 =>
              rw [hrest] at h
              simp only [Except.ok.injEq] at h
              subst h
              simp [ih l2 hrest]

theorem fetchAll_ok_net (net : Network) :
    ∀ (paths : List String) (l : List (String × Response)),
      fetchAll net paths = .ok l → ∀ a ∈ paths, ∃ r, net a = .ok r := by
  intro paths
  induction paths with
  | nil => intro l _ a ha; exact absurd ha (by simp)
  | cons p rest ih =>
      intro l h a ha
      simp only [fetchAll] at h
      cases hp : net p with
      | error e => rw [hp] at h; exact absurd h (by simp)
      | ok r =>
          rw [hp] at h
          cases hrest : fetchAll net rest with
          | error e => rw [hrest] at h; exact absurd h (by simp)
          | ok l2 =>
              rcases List.mem_cons.mp ha with rfl | hmem
              · exact ⟨r, hp⟩
              · exact ih l2 hrest a hmem

theorem storageGet_append (s t : CacheStorage) (n : String) :
    storageGet (s ++ t) n =
      match storageGet s n with
      | some b => some b
      | none => storageGet t n := by
  induction s with
  | nil => simp [storageGet]
  | cons p rest ih =>
      obtain ⟨m, b⟩ := p
      by_cases h : m = n <;> simp [storageGet, h, ih]

theorem storageGet_cachesOpen_self (cs : CacheStorage) (name : String) :
    ∃ b, storageGet (cachesOpen cs name) name = some b := by
  unfold cachesOpen
  cases h : storageGet cs name with
  | some b => exact ⟨b, h⟩
  | none =>
      refine ⟨[], ?_⟩
      rw [storageGet_append, h]
      simp [storageGet]

theorem storageGet_cachesOpen_ne (cs : CacheStorage) (name n : String) (h : n ≠ name) :
    storageGet (cachesOpen cs name) n = storageGet cs n := by
  unfold cachesOpen
  cases hg : storageGet cs name with
  | some b => rfl
  | none =>
      rw [storageGet_append]
      cases hn : storageGet cs n with
      | some b => rfl
      | none => simp [storageGet, Ne.symm h]

theorem storageGet_storagePut_self (s : CacheStorage) (name req : String) (r : Response)
    (b : Bucket) (h : storageGet s name = some b) :
    storageGet (storagePut s name req r) name = some (bucketPut b req r) := by
  induction s with
  | nil => simp [storageGet] at h
  | cons p rest ih =>
      obtain ⟨m, bk⟩ := p
      by_cases hm : m = name
      · subst hm
        simp [storageGet] at h
        subst h
        simp [storagePut, storageGet]
      · simp [storageGet, hm] at h
        simp [storagePut, storageGet, hm, ih h]

theorem storageGet_storagePut_ne (s : CacheStorage) (name req n : String) (r : Response)
    (h : n ≠ name) :
    storageGet (storagePut s name req r) n = storageGet s n := by
  induction s with
  | nil => simp [storagePut]
  | cons p rest ih =>
      obtain ⟨m, bk⟩ := p
      by_cases hm : m = name
      · subst hm
        simp [storagePut, storageGet, Ne.symm h]
      · by_cases hn : m = n <;> simp [storagePut, storageGet, hm, hn, ih, h]

theorem storageGet_foldPut_self (name : String) :
    ∀ (entries : List (String × Response)) (s : CacheStorage) (b : Bucket),
      storageGet s name = some b →
      storageGet (entries.foldl (fun s2 p => storagePut s2 name p.1 p.2) s) name
        = some (entries.foldl (fun b2 p => bucketPut b2 p.1 p.2) b) := by
  intro entries
  induction entries with
  | nil => intro s b h; simpa using h
  | cons p rest ih =>
      intro s b h
      simp only [List.foldl_cons]
      exact ih _ _ (storageGet_storagePut_self s name p.1 p.2 b h)

theorem storageGet_foldPut_ne (name n : String) (h : n ≠ name) :
    ∀ (entries : List (String × Response)) (s : CacheStorage),
      storageGet (entries.foldl (fun s2 p => storagePut s2 name p.1 p.2) s) n
        = storageGet s n := by
  intro entries
  induction entries with
  | nil => intro s; rfl
  | cons p rest ih =>
      intro s
      simp only [List.foldl_cons]
      rw [ih, storageGet_storagePut_ne _ _ _ _ _ h]

theorem bucketMatch_bucketPut_self (b : Bucket) (req : String) (r : Response) :
    bucketMatch (bucketPut b req r) req = some r := by
  induction b with
  | nil => simp [bucketPut, bucketMatch]
  | cons p rest ih =>
      obtain ⟨k, v⟩ := p
      by_cases hk : k = req <;> simp [bucketPut, bucketMatch, hk, ih]

theorem bucketMatch_bucketPut_ne (a req : String) (r : Response) (ha : a ≠ req) :
    ∀ b : Bucket, bucketMatch (bucketPut b req r) a = bucketMatch b a := by
  intro b
  induction b with
  | nil => simp [bucketPut, bucketMatch, Ne.symm ha]
  | cons p rest ih =>
      obtain ⟨k, v⟩ := p
      by_cases hk : k = req
      · subst hk
        simp [bucketPut, bucketMatch, Ne.symm ha]
      · by_cases hka : k = a <;> simp [bucketPut, bucketMatch, hk, hka, ih, ha]

theorem bucketMatch_bucketPut_isSome (b : Bucket) (a req : String) (r : Response)
    (h : (bucketMatch b a).isSome) :
    (bucketMatch (bucketPut b req r) a).isSome := by
  by_cases ha : a = req
  · subst ha; simp [bucketMatch_bucketPut_self]
  · rw [bucketMatch_bucketPut_ne a req r ha]; exact h

theorem bucketMatch_foldPut_isSome_mono (a : String) :
    ∀ (entries : List (String × Response)) (b : Bucket),
      (bucketMatch b a).isSome →
      (bucketMatch (entries.foldl (fun b2 p => bucketPut b2 p.1 p.2) b) a).isSome := by
  intro entries
  induction entries with
  | nil => intro b h; simpa using h
  | cons p rest ih =>
      intro b h
      simp only [List.foldl_cons]
      exact ih _ (bucketMatch_bucketPut_isSome b a p.1 p.2 h)

theorem bucketMatch_foldPut_isSome_of_mem (a : String) :
    ∀ (entries : List (String × Response)) (b : Bucket),
      a ∈ entries.map (fun p => p.1) →
      (bucketMatch (entries.foldl (fun b2 p => bucketPut b2 p.1 p.2) b) a).isSome := by
  intro entries
  induction entries with
  | nil => intro b h; simp at h
  | cons p rest ih =>
      intro b h
      simp only [List.map_cons, List.mem_cons] at h
      simp only [List.foldl_cons]
      rcases h with h | h
      · subst h
        exact bucketMatch_foldPut_isSome_mono _ rest _
          (by simp [bucketMatch_bucketPut_self])
      · exact ih _ h

theorem cachesMatch_isSome_of_storageGet (a n : String) :
    ∀ (cs : CacheStorage) (b : Bucket),
      storageGet cs n = some b → (bucketMatch b a).isSome →
      (cachesMatch cs a).isSome := by
  intro cs
  induction cs with
  | nil => intro b h; simp [storageGet] at h
  | cons p rest ih =>
      intro b hget hm
      obtain ⟨m, bk⟩ := p
      cases hbk : bucketMatch bk a with
      | some r => simp [cachesMatch, hbk]
      | none =>
          by_cases hmn : m = n
          · subst hmn
            simp [storageGet] at hget
            subst hget
            rw [hbk] at hm
            simp at hm
          · simp only [storageGet, if_neg hmn] at hget
            simp [cachesMatch, hbk, ih b hget hm]

theorem fetchAll_ok_of_net (net : Network) :
    ∀ paths : List String, (∀ a ∈ paths, ∃ r, net a = .ok r) →
      ∃ l, fetchAll net paths = .ok l := by
  intro paths
  induction paths with
  | nil => intro _; exact ⟨[], rfl⟩
  | cons a rest ih =>
      intro h
      obtain ⟨r, hr⟩ := h a (by simp)
      obtain ⟨l, hl⟩ := ih (fun x hx => h x (by simp [hx]))
      exact ⟨(a, r) :: l, by simp [fetchAll, hr, hl]⟩

theorem installHandler_unitOk_iff (net : Network) (cs : CacheStorage) :
    (installHandler net cs).unitOk = true ↔ ∃ l, fetchAll net ASSETS = .ok l := by
  unfold installHandler
  cases h : fetchAll net ASSETS with
  | error e => simp [h]
  | ok l => simp [h]

theorem mem_cachesKeys_cachesDelete (name k : String) :
    ∀ cs : CacheStorage,
      k ∈ cachesKeys (cachesDelete cs name) ↔ k ∈ cachesKeys cs ∧ k ≠ name := by
  intro cs
  induction cs with
  | nil => simp [cachesDelete, cachesKeys]
  | cons p rest ih =>
      obtain ⟨m, b⟩ := p
      by_cases hm : m = name
      · subst hm
        simp only [cachesDelete, if_pos rfl, cachesKeys, List.map_cons, List.mem_cons]
        rw [cachesKeys] at ih
        constructor
        · intro h; exact ⟨Or.inr (ih.mp h).1, (ih.mp h).2⟩
        · rintro ⟨h | h, hk⟩
          · exact absurd h hk
          · exact ih.mpr ⟨h, hk⟩
      · simp only [cachesDelete, if_neg hm, cachesKeys, List.map_cons, List.mem_cons]
        rw [cachesKeys] at ih
        constructor
        · rintro (rfl | h)
          · exact ⟨Or.inl rfl, hm⟩
          · exact ⟨Or.inr (ih.mp h).1, (ih.mp h).2⟩
        · rintro ⟨rfl | h, hk⟩
          · exact Or.inl rfl
          · exact Or.inr (ih.mpr ⟨h, hk⟩)

theorem storageGet_cachesDelete_ne (name n : String) (h : n ≠ name) :
    ∀ cs : CacheStorage, storageGet (cachesDelete cs name) n = storageGet cs n := by
  intro cs
  induction cs with
  | nil => simp [cachesDelete]
  | cons p rest ih =>
      obtain ⟨m, b⟩ := p
      by_cases hm : m = name
      · subst hm
        simp [cachesDelete, storageGet, Ne.symm h, ih]
      · by_cases hn : m = n <;> simp [cachesDelete, storageGet, hm, hn, ih, h]

theorem mem_keys_foldDelete (delOk : String → Bool) (k : String) :
    ∀ (stale : List String) (cs : CacheStorage),
      k ∈ cachesKeys
          (stale.foldl (fun s k2 => if delOk k2 then cachesDelete s k2 else s) cs)
        ↔ k ∈ cachesKeys cs ∧ ¬(k ∈ stale ∧ delOk k = true) := by
  intro stale
  induction stale with
  | nil => intro cs; simp
  | cons a rest ih =>
      intro cs
      simp only [List.foldl_cons]
      rw [ih]
      by_cases ha : delOk a = true
      · rw [if_pos ha, mem_cachesKeys_cachesDelete]
        by_cases hk : k = a
        · subst hk; simp [ha]
        · simp only [List.mem_cons]
          constructor
          · rintro ⟨⟨h1, _⟩, h2⟩
            exact ⟨h1, fun ⟨hm, hd⟩ => h2 ⟨hm.resolve_left hk, hd⟩⟩
          · rintro ⟨h1, h2⟩
            exact ⟨⟨h1, hk⟩, fun ⟨hm, hd⟩ => h2 ⟨Or.inr hm, hd⟩⟩
      · rw [if_neg ha]
        by_cases hk : k = a
        · subst hk
          simp only [List.mem_cons]
          constructor
          · rintro ⟨h1, _⟩
            exact ⟨h1, fun ⟨_, hd⟩ => ha hd⟩
          · rintro ⟨h1, _⟩
            exact ⟨h1, fun ⟨_, hd⟩ => ha hd⟩
        · simp only [List.mem_cons]
          constructor
          · rintro ⟨h1, h2⟩
            exact ⟨h1, fun ⟨hm, hd⟩ => h2 ⟨hm.resolve_left hk, hd⟩⟩
          · rintro ⟨h1, h2⟩
            exact ⟨h1, fun ⟨hm, hd⟩ => h2 ⟨Or.inr hm, hd⟩⟩

theorem storageGet_foldDelete_ne (delOk : String → Bool) (n : String) :
    ∀ (stale : List String) (cs : CacheStorage), (∀ k ∈ stale, n ≠ k) →
      storageGet
          (stale.foldl (fun s k2 => if delOk k2 then cachesDelete s k2 else s) cs) n
        = storageGet cs n := by
  intro stale
  induction stale with
  | nil => intro cs _; rfl
  | cons a rest ih =>
      intro cs h
      simp only [List.foldl_cons]
      rw [ih _ (fun k hk => h k (by simp [hk]))]
      by_cases ha : delOk a = true
      · rw [if_pos ha, storageGet_cachesDelete_ne a n (h a (by simp))]
      · rw [if_neg ha]

theorem mem_keys_foldDelete_of_failed (delOk : String → Bool) (k : String)
    (hfail : delOk k = false) :
    ∀ (stale : List String) (cs : CacheStorage), k ∈ cachesKeys cs →
      k ∈ cachesKeys
          (stale.foldl (fun s k2 => if delOk k2 then cachesDelete s k2 else s) cs) := by
  intro stale
  induction stale with
  | nil => intro cs h; exact h
  | cons a rest ih =>
      intro cs h
      simp only [List.foldl_cons]
      refine ih _ ?_
      by_cases ha : delOk a = true
      · rw [if_pos ha, mem_cachesKeys_cachesDelete]
        refine ⟨h, ?_⟩
        rintro rfl
        rw [hfail] at ha
        exact Bool.false_ne_true ha
      · rw [if_neg ha]; exact h

theorem cachesKeys_storagePut (s : CacheStorage) (name req : String) (r : Response) :
    cachesKeys (storagePut s name req r) = cachesKeys s := by
  induction s with
  | nil => rfl
  | cons p rest ih =>
      obtain ⟨m, b⟩ := p
      by_cases hm : m = name
      · simp [storagePut, cachesKeys, hm]
      · simp [storagePut, cachesKeys, hm]
        simpa [cachesKeys] using ih

theorem cachesKeys_foldPut (name : String) :
    ∀ (entries : List (String × Response)) (s : CacheStorage),
      cachesKeys (entries.foldl (fun s2 p => storagePut s2 name p.1 p.2) s)
        = cachesKeys s := by
  intro entries
  induction entries with
  | nil => intro s; rfl
  | cons p rest ih =>
      intro s
      simp only [List.foldl_cons]
      rw [ih, cachesKeys_storagePut]

theorem mem_cachesKeys_cachesOpen (cs : CacheStorage) (name k : String)
    (h : k ∈ cachesKeys cs) : k ∈ cachesKeys (cachesOpen cs name) := by
  unfold cachesOpen
  cases storageGet cs name with
  | some b => exact h
  | none => simp [cachesKeys] at h ⊢; exact Or.inl h

theorem bucketPut_eq_append_of_not_mem (req : String) (r : Response) :
    ∀ b : Bucket, req ∉ b.map (fun p => p.1) → bucketPut b req r = b ++ [(req, r)] := by
  intro b
  induction b with
  | nil => intro _; rfl
  | cons p rest ih =>
      obtain ⟨k, v⟩ := p
      intro h
      simp only [List.map_cons, List.mem_cons] at h
      push_neg at h
      simp [bucketPut, Ne.symm h.1, ih h.2]

theorem foldPut_eq_append :
    ∀ (entries : List (String × Response)) (b : Bucket),
      (entries.map (fun p => p.1)).Nodup →
      (∀ k ∈ entries.map (fun p => p.1), k ∉ b.map (fun p => p.1)) →
      entries.foldl (fun b2 p => bucketPut b2 p.1 p.2) b = b ++ entries := by
  intro entries
  induction entries with
  | nil => intro b _ _; simp
  | cons p rest ih =>
      intro b hnd hdisj
      simp only [List.map_cons, List.nodup_cons] at hnd
      simp only [List.foldl_cons]
      rw [bucketPut_eq_append_of_not_mem p.1 p.2 b (hdisj p.1 (by simp))]
      rw [ih (b ++ [p]) hnd.2 ?_]
      · simp
      · intro k hk
        simp only [List.map_append, List.mem_append]
        push_neg
        refine ⟨hdisj k (by simp [hk]), ?_⟩
        simp only [List.map_cons, List.map_nil, List.mem_singleton]
        rintro rfl
        exact hnd.1 hk

theorem skipWaiting_not_mem_addAllFetchTrace (net : Network) :
    ∀ paths : List String, Event.skipWaiting ∉ addAllFetchTrace net paths := by
  intro paths
  induction paths with
  | nil => simp [addAllFetchTrace]
  | cons a rest ih =>
      cases ha : net a with
      | error e => simp [addAllFetchTrace, ha]
      | ok r =>
          simp only [addAllFetchTrace, ha, List.mem_cons]
          rintro (h | h)
          · exact Event.noConfusion h
          · exact ih h

theorem fetchHandler_caches (net : Network) (cs : CacheStorage) (req : String) :
    (fetchHandler net cs req).caches = cs := by
  cases h : cachesMatch cs req <;> simp [fetchHandler, h]

theorem mem_keys_activate (delOk : String → Bool) (cs : CacheStorage) (k : String) :
    k ∈ cachesKeys (activateHandler delOk cs).caches ↔
      k ∈ cachesKeys cs ∧ ¬(k ∈ cachesKeys cs ∧ k ≠ CACHE ∧ delOk k = true) := by
  show k ∈ cachesKeys
      (((cachesKeys cs).filter (fun k2 => decide (k2 ≠ CACHE))).foldl
        (fun s k2 => if delOk k2 then cachesDelete s k2 else s) cs) ↔ _
  rw [mem_keys_foldDelete]
  simp only [List.mem_filter, decide_eq_true_eq]
  tauto

theorem storageGet_activate_current (delOk : String → Bool) (cs : CacheStorage) :
    storageGet (activateHandler delOk cs).caches CACHE = storageGet cs CACHE := by
  show storageGet
      (((cachesKeys cs).filter (fun k2 => decide (k2 ≠ CACHE))).foldl
        (fun s k2 => if delOk k2 then cachesDelete s k2 else s) cs) CACHE = _
  apply storageGet_foldDelete_ne
  intro k hk
  rw [List.mem_filter] at hk
  exact Ne.symm (of_decide_eq_true hk.2)

/-- C1: a request whose identity has a stored response in some open cache is
answered by the fetch handler with the stored response and zero network
calls; in particular, after a successful install every path of the Asset
List has such a stored response and is served from cache without the
network. -/
theorem fetch_cache_hit_serves_stored_response :
    (∀ (net : Network) (cs : CacheStorage) (req : String) (r : Response),
        cachesMatch cs req = some r →
        (fetchHandler net cs req).response = .ok r ∧
          (fetchHandler net cs req).networkCalls = 0) ∧
    (∀ (net net2 : Network) (cs : CacheStorage) (a : String),
        a ∈ ASSETS → (installHandler net cs).unitOk = true →
        ∃ r, cachesMatch (installHandler net cs).caches a = some r ∧
          (fetchHandler net2 (installHandler net cs).caches a).response = .ok r ∧
          (fetchHandler net2 (installHandler net cs).caches a).networkCalls = 0) := by
  constructor
  · intro net cs req r h
    constructor <;> simp [fetchHandler, h]
  · intro net net2 cs a ha hok
    rw [installHandler_unitOk_iff] at hok
    obtain ⟨l, hl⟩ := hok
    have hcaches : (installHandler net cs).caches
        = l.foldl (fun s p => storagePut s CACHE p.1 p.2) (cachesOpen cs CACHE) := by
      simp [installHandler, hl]
    obtain ⟨b0, hb0⟩ := storageGet_cachesOpen_self cs CACHE
    have hget := storageGet_foldPut_self CACHE l (cachesOpen cs CACHE) b0 hb0
    have hmem : a ∈ l.map (fun p => p.1) := by
      rw [fetchAll_ok_map_fst net ASSETS l hl]; exact ha
    have hbs := bucketMatch_foldPut_isSome_of_mem a l b0 hmem
    have hcm : (cachesMatch (installHandler net cs).caches a).isSome := by
      rw [hcaches]
      exact cachesMatch_isSome_of_storageGet a CACHE _ _ hget hbs
    obtain ⟨r, hr⟩ := Option.isSome_iff_exists.mp hcm
    exact ⟨r, hr, by simp [fetchHandler, hr], by simp [fetchHandler, hr]⟩

/-- Witness for C1: a concrete cache hit is served from the cache (even when
the network is down), and after a concrete successful install the asset
`"icon.svg"` is served from cache with zero network calls. -/
theorem fetch_cache_hit_serves_stored_response_witness :
    (cachesMatch [(CACHE, [("icon.svg", Response.mk "p")])] "icon.svg"
        = some (Response.mk "p") ∧
      (fetchHandler netDown [(CACHE, [("icon.svg", Response.mk "p")])] "icon.svg").response
          = .ok (Response.mk "p") ∧
      (fetchHandler netDown [(CACHE, [("icon.svg", Response.mk "p")])] "icon.svg").networkCalls
          = 0) ∧
    ("icon.svg" ∈ ASSETS ∧ (installHandler netUp []).unitOk = true ∧
      ∃ r, cachesMatch (installHandler netUp []).caches "icon.svg" = some r ∧
        (fetchHandler netDown (installHandler netUp []).caches "icon.svg").response = .ok r ∧
        (fetchHandler netDown (installHandler netUp []).caches "icon.svg").networkCalls = 0) :=
  ⟨⟨rfl, fetch_cache_hit_serves_stored_response.1 netDown
      [(CACHE, [("icon.svg", Response.mk "p")])] "icon.svg" (Response.mk "p") rfl⟩,
    ⟨by decide, rfl, fetch_cache_hit_serves_stored_response.2 netUp netDown [] "icon.svg"
      (by decide) rfl⟩⟩

/-- C2: a request whose identity is in no open cache is forwarded to the
network exactly once and the network's result — success or failure — is
returned verbatim as the response outcome. -/
theorem fetch_cache_miss_network_verbatim :
    ∀ (net : Network) (cs : CacheStorage) (req : String),
      cachesMatch cs req = none →
      (fetchHandler net cs req).response = net req ∧
        (fetchHandler net cs req).networkCalls = 1 := by
  intro net cs req h
  constructor <;> simp [fetchHandler, h]

/-- Witness for C2: with an empty cache storage, a request misses every
cache and the failing network's error is returned after exactly one network
call. -/
theorem fetch_cache_miss_network_verbatim_witness :
    cachesMatch [] "other.png" = none ∧
    (fetchHandler netDown [] "other.png").response = netDown "other.png" ∧
    (fetchHandler netDown [] "other.png").networkCalls = 1 :=
  ⟨rfl, fetch_cache_miss_network_verbatim netDown [] "other.png" rfl⟩

/-- C3: the install unit opens the bucket named by the generation tag
`"ghost-v1"` and stores one response per Asset List path; starting from a
state without that bucket, a successful install leaves the bucket with
exactly 3 entries keyed `"ghost.html"`, `"manifest.json"`, `"icon.svg"`. -/
theorem install_populates_generation_bucket :
    ∀ (net : Network) (cs : CacheStorage),
      storageGet cs CACHE = none →
      (installHandler net cs).unitOk = true →
      ∃ b : Bucket,
        storageGet (installHandler net cs).caches CACHE = some b ∧
        b.map (fun p => p.1) = ASSETS ∧
        b.length = 3 ∧
        ∀ a ∈ ASSETS, ∃ r, bucketMatch b a = some r := by
  intro net cs hno hok
  rw [installHandler_unitOk_iff] at hok
  obtain ⟨l, hl⟩ := hok
  have hfst := fetchAll_ok_map_fst net ASSETS l hl
  have hb0 : storageGet (cachesOpen cs CACHE) CACHE = some [] := by
    unfold cachesOpen
    rw [hno, storageGet_append, hno]
    simp [storageGet]
  have hcaches : (installHandler net cs).caches
      = l.foldl (fun s p => storagePut s CACHE p.1 p.2) (cachesOpen cs CACHE) := by
    simp [installHandler, hl]
  have hget := storageGet_foldPut_self CACHE l (cachesOpen cs CACHE) [] hb0
  have hfold : l.foldl (fun b2 p => bucketPut b2 p.1 p.2) ([] : Bucket) = l := by
    have h2 := foldPut_eq_append l [] (by rw [hfst]; decide) (by simp)
    simpa using h2
  refine ⟨l, ?_, hfst, ?_, ?_⟩
  · rw [hcaches, hget, hfold]
  · have h3 : (l.map (fun p => p.1)).length = ASSETS.length := by rw [hfst]
    simpa using h3
  · intro a ha
    have hmem : a ∈ l.map (fun p => p.1) := by rw [hfst]; exact ha
    have hs := bucketMatch_foldPut_isSome_of_mem a l [] hmem
    rw [hfold] at hs
    exact Option.isSome_iff_exists.mp hs

/-- Witness for C3: a concrete successful install from empty storage yields
the `"ghost-v1"` bucket with exactly the three asset entries. -/
theorem install_populates_generation_bucket_witness :
    storageGet [] CACHE = none ∧ (installHandler netUp []).unitOk = true ∧
    ∃ b : Bucket,
      storageGet (installHandler netUp []).caches CACHE = some b ∧
      b.map (fun p => p.1) = ASSETS ∧
      b.length = 3 ∧
      ∀ a ∈ ASSETS, ∃ r, bucketMatch b a = some r :=
  ⟨rfl, rfl, install_populates_generation_bucket netUp [] rfl rfl⟩

/-- C4: with all deletions succeeding, activate deletes exactly the buckets
whose name differs from the generation tag — afterwards a name is present
iff it is the tag (given the tag's bucket existed) — and activate never
deletes the current generation's bucket, so re-activating with the same tag
leaves it intact. -/
theorem activate_deletes_exactly_stale_buckets :
    (∀ cs : CacheStorage, CACHE ∈ cachesKeys cs →
        ∀ k, k ∈ cachesKeys (activateHandler (fun _ => true) cs).caches ↔ k = CACHE) ∧
    (∀ (delOk : String → Bool) (cs : CacheStorage),
        storageGet (activateHandler delOk cs).caches CACHE = storageGet cs CACHE) := by
  constructor
  · intro cs hc k
    rw [mem_keys_activate]
    constructor
    · rintro ⟨hk, hn⟩
      by_contra hne
      exact hn ⟨hk, hne, rfl⟩
    · rintro rfl
      exact ⟨hc, fun h => h.2.1 rfl⟩
  · intro delOk cs
    exact storageGet_activate_current delOk cs

/-- Witness for C4: activating on a storage holding the current bucket and a
stale `"ghost-v0"` bucket removes the stale name and keeps the current
bucket's contents. -/
theorem activate_deletes_exactly_stale_buckets_witness :
    CACHE ∈ cachesKeys [(CACHE, ([] : Bucket)), ("ghost-v0", [])] ∧
    ("ghost-v0" ∈ cachesKeys
        (activateHandler (fun _ => true) [(CACHE, ([] : Bucket)), ("ghost-v0", [])]).caches
      ↔ "ghost-v0" = CACHE) ∧
    storageGet
        (activateHandler (fun _ => true) [(CACHE, ([] : Bucket)), ("ghost-v0", [])]).caches
        CACHE
      = storageGet [(CACHE, ([] : Bucket)), ("ghost-v0", [])] CACHE :=
  ⟨by decide,
    activate_deletes_exactly_stale_buckets.1 [(CACHE, ([] : Bucket)), ("ghost-v0", [])]
      (by decide) "ghost-v0",
    activate_deletes_exactly_stale_buckets.2 (fun _ => true)
      [(CACHE, ([] : Bucket)), ("ghost-v0", [])]⟩

/-- C5: the install unit fails whenever any single asset fetch fails, and it
reports success only when every asset fetch succeeded — no partial-cache
outcome is reported as success. -/
theorem install_fails_on_any_asset_fetch_failure :
    ∀ (net : Network) (cs : CacheStorage),
      ((∃ a ∈ ASSETS, ∃ e, net a = .error e) →
        (installHandler net cs).unitOk = false) ∧
      ((installHandler net cs).unitOk = true → ∀ a ∈ ASSETS, ∃ r, net a = .ok r) := by
  intro net cs
  have hall : (installHandler net cs).unitOk = true → ∀ a ∈ ASSETS, ∃ r, net a = .ok r := by
    intro hok a ha
    rw [installHandler_unitOk_iff] at hok
    obtain ⟨l, hl⟩ := hok
    exact fetchAll_ok_net net ASSETS l hl a ha
  refine ⟨?_, hall⟩
  rintro ⟨a, ha, e, he⟩
  cases hok : (installHandler net cs).unitOk with
  | false => rfl
  | true =>
      obtain ⟨r, hr⟩ := hall hok a ha
      rw [he] at hr
      exact absurd hr (by simp)

/-- Witness for C5: with the network down, the fetch of `"ghost.html"` fails
and the concrete install unit reports failure. -/
theorem install_fails_on_any_asset_fetch_failure_witness :
    (∃ a ∈ ASSETS, ∃ e, netDown a = .error e) ∧
    (installHandler netDown []).unitOk = false :=
  ⟨⟨"ghost.html", by decide, ⟨"unreachable"⟩, rfl⟩,
    (install_fails_on_any_asset_fetch_failure netDown []).1
      ⟨"ghost.html", by decide, ⟨"unreachable"⟩, rfl⟩⟩

/-- Counterexample to C6 as stated: in a concrete successful install the
skip-waiting signal precedes the bulk fetch-and-store events (it is emitted
synchronously by the handler body), and in a concrete activate with a stale
bucket the claim-clients signal precedes the deletion, so neither signal is
emitted only after its unit's work has finished. -/
theorem lifecycle_signals_before_unit_work_cex :
    noWorkAfterSig isSkipWaiting isInstallWork (installHandler netUp []).trace = false ∧
    noWorkAfterSig isClaimClients isDeleteWork
        (activateHandler (fun _ => true) [("ghost-v0", []), (CACHE, [])]).trace = false :=
  ⟨rfl, rfl⟩

/-- C6 amended: the skip-waiting signal is emitted synchronously as the
first observable event of the install handler — before (and regardless of)
the bulk fetch-and-store — and the claim-clients signal is emitted
synchronously as the first observable event of the activate handler, before
the stale-bucket deletions. -/
theorem lifecycle_signals_emitted_synchronously :
    ∀ (net : Network) (cs cs2 : CacheStorage) (delOk : String → Bool),
      (installHandler net cs).trace.head? = some Event.skipWaiting ∧
      (activateHandler delOk cs2).trace.head? = some Event.claimClients := by
  intro net cs cs2 delOk
  constructor
  · cases h : fetchAll net ASSETS <;> simp [installHandler, h]
  · rfl

/-- C7: a failed stale-bucket deletion is indistinguishable from a
successful one in the activate unit's outcome: the unit still completes,
emits exactly the same events (no report, no retry), and the failed bucket
simply remains in the storage. -/
theorem activate_deletion_failure_not_surfaced :
    ∀ (delOk : String → Bool) (cs : CacheStorage),
      (activateHandler delOk cs).unitOk = true ∧
      (activateHandler delOk cs).trace = (activateHandler (fun _ => true) cs).trace ∧
      ∀ k, k ∈ cachesKeys cs → delOk k = false →
        k ∈ cachesKeys (activateHandler delOk cs).caches := by
  intro delOk cs
  refine ⟨rfl, rfl, ?_⟩
  intro k hk hfail
  show k ∈ cachesKeys
      (((cachesKeys cs).filter (fun k2 => decide (k2 ≠ CACHE))).foldl
        (fun s k2 => if delOk k2 then cachesDelete s k2 else s) cs)
  exact mem_keys_foldDelete_of_failed delOk k hfail _ cs hk

/-- Witness for C7: a concrete activate in which deleting the stale
`"ghost-v0"` bucket fails still completes, and the bucket remains. -/
theorem activate_deletion_failure_not_surfaced_witness :
    (activateHandler (fun _ => false) [("ghost-v0", ([] : Bucket))]).unitOk = true ∧
    "ghost-v0" ∈ cachesKeys [("ghost-v0", ([] : Bucket))] ∧
    "ghost-v0" ∈ cachesKeys
        (activateHandler (fun _ => false) [("ghost-v0", ([] : Bucket))]).caches :=
  ⟨(activate_deletion_failure_not_surfaced (fun _ => false) [("ghost-v0", [])]).1,
    by decide,
    (activate_deletion_failure_not_surfaced (fun _ => false) [("ghost-v0", [])]).2.2
      "ghost-v0" (by decide) rfl⟩

/-- C8: the fetch handler never modifies the cache storage — neither on a
hit nor on a network fallback — and serving any sequence of requests leaves
the cache storage exactly as install left it. -/
theorem fetch_never_writes_cache :
    ∀ (net : Network) (cs : CacheStorage),
      (∀ req, (fetchHandler net cs req).caches = cs) ∧
      (∀ reqs : List String, serveAll net cs reqs = cs) := by
  intro net cs
  refine ⟨fetchHandler_caches net cs, ?_⟩
  intro reqs
  induction reqs with
  | nil => rfl
  | cons r rs ih =>
      show serveAll net (fetchHandler net cs r).caches rs = cs
      rw [fetchHandler_caches]
      exact ih

/-- C9: the skip-waiting signal is emitted exactly once by every run of the
install handler, whatever the network does; in particular it has been
emitted even when the install unit fails. -/
theorem skip_waiting_emitted_unconditionally :
    ∀ (net : Network) (cs : CacheStorage),
      (installHandler net cs).trace.count Event.skipWaiting = 1 ∧
      ((installHandler net cs).unitOk = false →
        Event.skipWaiting ∈ (installHandler net cs).trace) := by
  intro net cs
  have htr : ∃ rest, (installHandler net cs).trace = Event.skipWaiting :: rest ∧
      Event.skipWaiting ∉ rest := by
    cases h : fetchAll net ASSETS with
    | error e =>
        refine ⟨addAllFetchTrace net ASSETS, by simp [installHandler, h], ?_⟩
        exact skipWaiting_not_mem_addAllFetchTrace net ASSETS
    | ok l =>
        refine ⟨addAllFetchTrace net ASSETS ++ l.map (fun p => Event.cacheStore CACHE p.1),
          by simp [installHandler, h], ?_⟩
        rw [List.mem_append]
        rintro (hm | hm)
        · exact skipWaiting_not_mem_addAllFetchTrace net ASSETS hm
        · obtain ⟨p, _, hp⟩ := List.mem_map.mp hm
          exact Event.noConfusion hp
  obtain ⟨rest, heq, hnot⟩ := htr
  constructor
  · rw [heq, List.count_cons_self, List.count_eq_zero.mpr hnot]
  · intro _
    rw [heq]
    exact List.mem_cons_self _ _

/-- Witness for C9: with the network down the concrete install unit fails,
yet the skip-waiting signal is in its trace. -/
theorem skip_waiting_emitted_unconditionally_witness :
    (installHandler netDown []).unitOk = false ∧
    Event.skipWaiting ∈ (installHandler netDown []).trace :=
  ⟨rfl, (skip_waiting_emitted_unconditionally netDown []).2 rfl⟩

/-- C10: install never deletes or modifies any bucket other than the one
named by the generation tag — every other name maps to exactly the bucket it
mapped to before — and no pre-existing bucket name (the tag's included)
disappears during install. -/
theorem install_preserves_other_buckets :
    ∀ (net : Network) (cs : CacheStorage) (n : String),
      (n ≠ CACHE → storageGet (installHandler net cs).caches n = storageGet cs n) ∧
      (n ∈ cachesKeys cs → n ∈ cachesKeys (installHandler net cs).caches) := by
  intro net cs n
  cases h : fetchAll net ASSETS with
  | error e =>
      have hc : (installHandler net cs).caches = cachesOpen cs CACHE := by
        simp [installHandler, h]
      rw [hc]
      exact ⟨fun hn => storageGet_cachesOpen_ne cs CACHE n hn,
        fun hn => mem_cachesKeys_cachesOpen cs CACHE n hn⟩
  | ok l =>
      have hc : (installHandler net cs).caches
          = l.foldl (fun s p => storagePut s CACHE p.1 p.2) (cachesOpen cs CACHE) := by
        simp [installHandler, h]
      rw [hc]
      constructor
      · intro hn
        rw [storageGet_foldPut_ne CACHE n hn l (cachesOpen cs CACHE)]
        exact storageGet_cachesOpen_ne cs CACHE n hn
      · intro hn
        rw [cachesKeys_foldPut CACHE l (cachesOpen cs CACHE)]
        exact mem_cachesKeys_cachesOpen cs CACHE n hn

/-- Witness for C10: a concrete install on a storage holding a previous
generation's bucket `"ghost-v0"` leaves that bucket and its entry exactly as
they were, and the name is still present. -/
theorem install_preserves_other_buckets_witness :
    ("ghost-v0" : String) ≠ CACHE ∧
    storageGet
        (installHandler netUp [("ghost-v0", [("old.html", Response.mk "o")])]).caches
        "ghost-v0"
      = storageGet [("ghost-v0", [("old.html", Response.mk "o")])] "ghost-v0" ∧
    "ghost-v0" ∈ cachesKeys [("ghost-v0", [("old.html", Response.mk "o")])] ∧
    "ghost-v0" ∈ cachesKeys
        (installHandler netUp [("ghost-v0", [("old.html", Response.mk "o")])]).caches :=
  ⟨by decide,
    (install_preserves_other_buckets netUp
      [("ghost-v0", [("old.html", Response.mk "o")])] "ghost-v0").1 (by decide),
    by decide,
    (install_preserves_other_buckets netUp
      [("ghost-v0", [("old.html", Response.mk "o")])] "ghost-v0").2 (by decide)⟩

end PatchDao
